import Mathlib

/-!
Verification of the storefront component (src/react.jsx): product catalog
filtering/sorting and the shopping-cart state machine, embedded shallowly.

JS specifics modelled explicitly:
- Array.prototype.sort with a consistent comparator produces the unique
  stable sorted permutation, so it is embedded as List.mergeSort (stable).
- A string is truthy exactly when nonempty, so the guards on searchTerm,
  selectedCategory and sortOrder compare against the empty string.
- updateQuantity dereferences product.rating on the result of a find over
  the catalog with no null check; when the lookup fails this throws a
  TypeError. The embedding returns Option, none standing for that throw
  (state updates are skipped, so the cart state is left as it was).
-/

namespace ECommerce

/-- Rating record of a catalog product; only the count field is used by the
component, as the stock count. -/
structure Rating where
  rate : Rat
  count : Nat
  deriving DecidableEq

/-- A catalog product as fetched from the endpoint. -/
structure Product where
  id : Nat
  title : String
  price : Rat
  category : String
  image : String
  rating : Rating
  deriving DecidableEq

/-- The stock count of a product, which the source reads as rating.count. -/
def Product.stockCount (p : Product) : Nat := p.rating.count

/-- One cart line: the spread of a product plus a quantity field. -/
structure CartItem where
  prod : Product
  quantity : Int
  deriving DecidableEq

/-- Whether the character list sub is a prefix of s (char-by-char equality). -/
def startsWithCh : List Char → List Char → Bool
  | [], _ => true
  | _ :: _, [] => false
  | a :: as, b :: bs => a == b && startsWithCh as bs

/-- Whether sub occurs contiguously inside s. -/
def containsSub : List Char → List Char → Bool
  | sub, [] => startsWithCh sub []
  | sub, b :: rest => startsWithCh sub (b :: rest) || containsSub sub rest

/-- JS s.includes(sub): substring containment. -/
def jsIncludes (s sub : String) : Bool :=
  containsSub sub.toList s.toList

/-- The three filter criteria held in component state. -/
structure FilterCriteria where
  searchTerm : String
  selectedCategory : String
  sortOrder : String
  deriving DecidableEq

/-- Lines 36-48 of applyFilters: the search filter (case-insensitive
substring match on title) then the category filter (exact match), each
applied only when its criterion string is truthy (nonempty). -/
def searchCategoryFilter (products : List Product) (c : FilterCriteria) : List Product :=
  let filtered := products
  let filtered :=
    if c.searchTerm = "" then filtered
    else filtered.filter (fun product => jsIncludes product.title.toLower c.searchTerm.toLower)
  if c.selectedCategory = "" then filtered
  else filtered.filter (fun product => product.category == c.selectedCategory)

/-- applyFilters: filtering then the price sort. The JS in-place sort on the
copied array, with comparator a.price - b.price (resp. b.price - a.price),
is the stable sort by that key, embedded as List.mergeSort. -/
def applyFilters (products : List Product) (c : FilterCriteria) : List Product :=
  let filtered := searchCategoryFilter products c
  if c.sortOrder = "low-high" then
    filtered.mergeSort (fun a b => decide (a.price ≤ b.price))
  else if c.sortOrder = "high-low" then
    filtered.mergeSort (fun a b => decide (b.price ≤ a.price))
  else filtered

/-- getCategories: the spread of new Set(products.map(p => p.category)),
i.e. the distinct categories in first-occurrence order, since a JS Set
preserves insertion order and skips elements already present. -/
def getCategories (products : List Product) : List String :=
  (products.map (fun p => p.category)).foldl
    (fun acc c => if c ∈ acc then acc else acc ++ [c]) []

/-- addToCart: if a line with the product's id exists, increment its
quantity when it is below the passed product's stock count, else leave the
cart alone; if no line exists, append a fresh line with quantity 1
(no stock check is made on this branch). -/
def addToCart (cart : List CartItem) (product : Product) : List CartItem :=
  match cart.find? (fun item => item.prod.id == product.id) with
  | some existingItem =>
      if existingItem.quantity < (product.rating.count : Int) then
        cart.map (fun item =>
          if item.prod.id == product.id then
            { item with quantity := item.quantity + 1 }
          else item)
      else cart
  | none => cart ++ [{ prod := product, quantity := 1 }]

/-- removeFromCart: drop every line whose id equals productId. -/
def removeFromCart (cart : List CartItem) (productId : Nat) : List CartItem :=
  cart.filter (fun item => item.prod.id != productId)

/-- updateQuantity: the stock count is read from the raw catalog. When no
catalog product has productId, the source dereferences undefined.rating and
throws a TypeError, modelled as none. Otherwise: nonpositive newQuantity
removes the line, newQuantity within stock sets it exactly, above stock the
cart is returned unchanged. -/
def updateQuantity (products : List Product) (cart : List CartItem)
    (productId : Nat) (newQuantity : Int) : Option (List CartItem) :=
  match products.find? (fun p => p.id == productId) with
  | none => none
  | some product =>
      if newQuantity ≤ 0 then some (removeFromCart cart productId)
      else if newQuantity ≤ (product.rating.count : Int) then
        some (cart.map (fun item =>
          if item.prod.id == productId then { item with quantity := newQuantity }
          else item))
      else some cart

/-- One user-initiated cart mutation. -/
inductive Op where
  | add (product : Product)
  | remove (productId : Nat)
  | update (productId : Nat) (newQuantity : Int)
  deriving DecidableEq

/-- Effect of one mutation on the cart state. A thrown TypeError inside
updateQuantity aborts the handler before any state update, so the cart
state is unchanged in the none case. -/
def applyOp (products : List Product) (cart : List CartItem) : Op → List CartItem
  | .add product => addToCart cart product
  | .remove productId => removeFromCart cart productId
  | .update productId newQuantity =>
      (updateQuantity products cart productId newQuantity).getD cart

/-- Cart state after a finite sequence of mutations, starting empty. -/
def runOps (products : List Product) (ops : List Op) : List CartItem :=
  ops.foldl (applyOp products) []

/-- The component state relevant to catalog and cart behaviour. -/
structure AppState where
  products : List Product
  filteredProducts : List Product
  cart : List CartItem
  searchTerm : String
  selectedCategory : String
  sortOrder : String

/-- The applyFilters effect on component state: recompute the derived
filtered list from the raw catalog and the current criteria. -/
def applyFiltersState (s : AppState) : AppState :=
  let criteria := FilterCriteria.mk s.searchTerm s.selectedCategory s.sortOrder
  { s with filteredProducts := applyFilters s.products criteria }

/-- The category enumeration as computed in a given component state: it
reads only the raw catalog. -/
def getCategoriesState (s : AppState) : List String :=
  getCategories s.products

/-- A fixed sample product with zero stock, for concrete evaluations. -/
def sampleOutOfStock : Product :=
  { id := 1, title := "Red Shirt", price := 20, category := "clothing",
    image := "", rating := { rate := 0, count := 0 } }

/-- A fixed sample product with stock 3. -/
def sampleInStock : Product :=
  { id := 2, title := "Blue Shirt", price := 10, category := "clothing",
    image := "", rating := { rate := 0, count := 3 } }

/-- Branch equation of addToCart when no line carries the product's id. -/
lemma addToCart_of_find_none {cart : List CartItem} {product : Product}
    (hfind : cart.find? (fun item => item.prod.id == product.id) = none) :
    addToCart cart product = cart ++ [{ prod := product, quantity := 1 }] := by
  unfold addToCart
  rw [hfind]

/-- Branch equation of addToCart when a line exists and is below stock. -/
lemma addToCart_of_find_some_lt {cart : List CartItem} {product : Product}
    {existingItem : CartItem}
    (hfind : cart.find? (fun item => item.prod.id == product.id) = some existingItem)
    (hlt : existingItem.quantity < (product.rating.count : Int)) :
    addToCart cart product = cart.map (fun item =>
      if item.prod.id == product.id then { item with quantity := item.quantity + 1 }
      else item) := by
  unfold addToCart
  rw [hfind]
  exact if_pos hlt

/-- Branch equation of addToCart when a line exists and is at stock. -/
lemma addToCart_of_find_some_ge {cart : List CartItem} {product : Product}
    {existingItem : CartItem}
    (hfind : cart.find? (fun item => item.prod.id == product.id) = some existingItem)
    (hge : ¬ existingItem.quantity < (product.rating.count : Int)) :
    addToCart cart product = cart := by
  unfold addToCart
  rw [hfind]
  exact if_neg hge

/-- Branch equation of updateQuantity when the catalog lookup fails. -/
lemma updateQuantity_of_find_none {products : List Product} {cart : List CartItem}
    {productId : Nat} {newQuantity : Int}
    (hfind : products.find? (fun p => p.id == productId) = none) :
    updateQuantity products cart productId newQuantity = none := by
  unfold updateQuantity
  rw [hfind]

/-- Branch equation of updateQuantity when the catalog lookup succeeds. -/
lemma updateQuantity_of_find_some {products : List Product} {cart : List CartItem}
    {productId : Nat} {newQuantity : Int} {product : Product}
    (hfind : products.find? (fun p => p.id == productId) = some product) :
    updateQuantity products cart productId newQuantity =
      if newQuantity ≤ 0 then some (removeFromCart cart productId)
      else if newQuantity ≤ (product.rating.count : Int) then
        some (cart.map (fun item =>
          if item.prod.id == productId then { item with quantity := newQuantity }
          else item))
      else some cart := by
  unfold updateQuantity
  rw [hfind]

/-- The line ids carried by a cart, in order. -/
def CartIds (cart : List CartItem) : List Nat :=
  cart.map (fun item => item.prod.id)

/-- Cart well-formedness relative to a catalog: line ids are pairwise
distinct, every line is a copy of a catalog product, and every quantity is
at least 1 and at most max 1 stockCount. -/
def CartWF (products : List Product) (cart : List CartItem) : Prop :=
  (CartIds cart).Nodup ∧
    ∀ item ∈ cart, item.prod ∈ products ∧
      1 ≤ item.quantity ∧ item.quantity ≤ max 1 (item.prod.rating.count : Int)

/-- A map that only rewrites quantities leaves the line ids unchanged. -/
lemma cartIds_map_quantity (cart : List CartItem) (pred : CartItem → Bool)
    (g : CartItem → Int) :
    CartIds (cart.map (fun item =>
      if pred item then { item with quantity := g item } else item)) = CartIds cart := by
  unfold CartIds
  rw [List.map_map]
  apply List.map_congr_left
  intro item _
  by_cases hp : pred item <;> simp [hp]

/-- addToCart preserves distinctness of the line ids. -/
lemma cartIds_addToCart (cart : List CartItem) (product : Product)
    (h : (CartIds cart).Nodup) : (CartIds (addToCart cart product)).Nodup := by
  rcases hfind : cart.find? (fun item => item.prod.id == product.id) with _ | existingItem
  · rw [addToCart_of_find_none hfind]
    rw [List.find?_eq_none] at hfind
    unfold CartIds at h ⊢
    simp only [List.map_append, List.map_cons, List.map_nil]
    rw [List.nodup_append]
    refine ⟨h, List.nodup_singleton _, ?_⟩
    intro a ha hb
    rw [List.mem_singleton] at hb
    subst hb
    obtain ⟨item, hmem, hid⟩ := List.mem_map.mp ha
    exact hfind item hmem (by simpa using hid)
  · by_cases hlt : existingItem.quantity < (product.rating.count : Int)
    · rw [addToCart_of_find_some_lt hfind hlt, cartIds_map_quantity]
      exact h
    · rw [addToCart_of_find_some_ge hfind hlt]
      exact h

/-- removeFromCart preserves distinctness of the line ids. -/
lemma cartIds_removeFromCart (cart : List CartItem) (productId : Nat)
    (h : (CartIds cart).Nodup) : (CartIds (removeFromCart cart productId)).Nodup := by
  unfold removeFromCart CartIds at *
  exact ((List.filter_sublist cart).map _).nodup h

/-- Every cart mutation preserves distinctness of the line ids. -/
lemma cartIds_applyOp (products : List Product) (cart : List CartItem) (op : Op)
    (h : (CartIds cart).Nodup) : (CartIds (applyOp products cart op)).Nodup := by
  cases op with
  | add product => exact cartIds_addToCart cart product h
  | remove productId => exact cartIds_removeFromCart cart productId h
  | update productId newQuantity =>
      show ((CartIds ((updateQuantity products cart productId newQuantity).getD cart))).Nodup
      rcases hfind : products.find? (fun p => p.id == productId) with _ | product
      · rw [updateQuantity_of_find_none hfind]
        exact h
      · rw [updateQuantity_of_find_some hfind]
        split
        · exact cartIds_removeFromCart cart productId h
        · split
          · rw [Option.getD_some, cartIds_map_quantity]
            exact h
          · exact h

/-- C10: after any finite sequence of cart mutations starting from the
empty cart, the cart carries at most one line per product id. -/
theorem cart_ids_nodup (products : List Product) (ops : List Op) :
    (CartIds (runOps products ops)).Nodup := by
  unfold runOps
  suffices h : ∀ cart : List CartItem, (CartIds cart).Nodup →
      (CartIds (ops.foldl (applyOp products) cart)).Nodup by
    exact h [] (by simp [CartIds])
  induction ops with
  | nil => exact fun cart h => h
  | cons op ops ih =>
      intro cart h
      rw [List.foldl_cons]
      exact ih _ (cartIds_applyOp products cart op h)

/-- Catalog products with equal ids are equal when catalog ids are nodup. -/
lemma catalog_inj {products : List Product} (hids : (products.map Product.id).Nodup)
    {p q : Product} (hp : p ∈ products) (hq : q ∈ products) (hid : p.id = q.id) :
    p = q :=
  List.inj_on_of_nodup_map hids hp hq hid

/-- Cart members with equal line ids are equal when cart ids are nodup. -/
lemma cart_inj {cart : List CartItem} (hnd : (CartIds cart).Nodup)
    {a b : CartItem} (ha : a ∈ cart) (hb : b ∈ cart)
    (hid : a.prod.id = b.prod.id) : a = b :=
  List.inj_on_of_nodup_map
    (show (cart.map (fun item => item.prod.id)).Nodup from hnd) ha hb hid

/-- addToCart preserves cart well-formedness, for catalog products. -/
lemma cartWF_addToCart (products : List Product) (cart : List CartItem)
    (product : Product) (hids : (products.map Product.id).Nodup)
    (hp : product ∈ products) (h : CartWF products cart) :
    CartWF products (addToCart cart product) := by
  obtain ⟨hnd, hitems⟩ := h
  refine ⟨cartIds_addToCart cart product hnd, ?_⟩
  rcases hfind : cart.find? (fun item => item.prod.id == product.id) with _ | existingItem
  · rw [addToCart_of_find_none hfind]
    intro item hmem
    rcases List.mem_append.mp hmem with hm | hm
    · exact hitems item hm
    · rw [List.mem_singleton] at hm
      subst hm
      exact ⟨hp, le_refl 1, le_max_left 1 _⟩
  · have hex_mem : existingItem ∈ cart := List.mem_of_find?_eq_some hfind
    have hex_id : existingItem.prod.id = product.id := by
      simpa using List.find?_some hfind
    by_cases hlt : existingItem.quantity < (product.rating.count : Int)
    · rw [addToCart_of_find_some_lt hfind hlt]
      intro item hmem
      obtain ⟨item0, hm0, heq⟩ := List.mem_map.mp hmem
      obtain ⟨hmem0, h1, h2⟩ := hitems item0 hm0
      by_cases hid : item0.prod.id = product.id
      · have hitem_eq : item0 = existingItem :=
          cart_inj hnd hm0 hex_mem (hid.trans hex_id.symm)
        have hprod_eq : item0.prod = product :=
          catalog_inj hids hmem0 hp hid
        rw [if_pos (by simpa using hid)] at heq
        subst heq
        dsimp only
        refine ⟨hmem0, by omega, ?_⟩
        have hlt0 : item0.quantity < (product.rating.count : Int) := by
          rw [hitem_eq]
          exact hlt
        rw [hprod_eq]
        omega
      · rw [if_neg (by simpa using hid)] at heq
        subst heq
        exact ⟨hmem0, h1, h2⟩
    · rw [addToCart_of_find_some_ge hfind hlt]
      exact hitems

/-- removeFromCart preserves cart well-formedness. -/
lemma cartWF_removeFromCart (products : List Product) (cart : List CartItem)
    (productId : Nat) (h : CartWF products cart) :
    CartWF products (removeFromCart cart productId) := by
  obtain ⟨hnd, hitems⟩ := h
  refine ⟨cartIds_removeFromCart cart productId hnd, ?_⟩
  intro item hmem
  exact hitems item (List.mem_of_mem_filter hmem)

/-- The cart-state effect of updateQuantity preserves well-formedness. -/
lemma cartWF_update (products : List Product) (cart : List CartItem)
    (productId : Nat) (newQuantity : Int)
    (hids : (products.map Product.id).Nodup) (h : CartWF products cart) :
    CartWF products ((updateQuantity products cart productId newQuantity).getD cart) := by
  obtain ⟨hnd, hitems⟩ := h
  rcases hfind : products.find? (fun p => p.id == productId) with _ | product
  · rw [updateQuantity_of_find_none hfind]
    exact ⟨hnd, hitems⟩
  · have hpmem : product ∈ products := List.mem_of_find?_eq_some hfind
    have hpid : product.id = productId := by simpa using List.find?_some hfind
    rw [updateQuantity_of_find_some hfind]
    split
    · exact cartWF_removeFromCart products cart productId ⟨hnd, hitems⟩
    · split
      · rw [Option.getD_some]
        next hpos hle =>
        refine ⟨by rw [cartIds_map_quantity]; exact hnd, ?_⟩
        intro item hmem
        obtain ⟨item0, hm0, heq⟩ := List.mem_map.mp hmem
        obtain ⟨hmem0, h1, h2⟩ := hitems item0 hm0
        by_cases hid : item0.prod.id = productId
        · have hprod_eq : item0.prod = product :=
            catalog_inj hids hmem0 hpmem (hid.trans hpid.symm)
          rw [if_pos (by simpa using hid)] at heq
          subst heq
          dsimp only
          refine ⟨hmem0, by omega, ?_⟩
          rw [hprod_eq]
          omega
        · rw [if_neg (by simpa using hid)] at heq
          subst heq
          exact ⟨hmem0, h1, h2⟩
      · exact ⟨hnd, hitems⟩

/-- Any sequence of mutations whose added products come from the catalog
preserves cart well-formedness, starting from any well-formed cart. -/
lemma cartWF_foldl (products : List Product) (hids : (products.map Product.id).Nodup) :
    ∀ (ops : List Op) (cart : List CartItem),
      (∀ p, Op.add p ∈ ops → p ∈ products) → CartWF products cart →
      CartWF products (ops.foldl (applyOp products) cart)
  | [], _, _, h => h
  | op :: ops, cart, hops, h => by
      rw [List.foldl_cons]
      refine cartWF_foldl products hids ops _
        (fun p hp => hops p (List.mem_cons_of_mem _ hp)) ?_
      cases op with
      | add product =>
          exact cartWF_addToCart products cart product hids
            (hops product (List.mem_cons_self _ _)) h
      | remove productId => exact cartWF_removeFromCart products cart productId h
      | update productId newQuantity =>
          exact cartWF_update products cart productId newQuantity hids h

/-- C1 counterexample: the claimed invariant quantity ≤ stockCount fails
for a zero-stock catalog product after a single addToCart. -/
theorem cart_quantity_bounds_counterexample :
    ¬ ∀ item ∈ runOps [sampleOutOfStock] [Op.add sampleOutOfStock],
        1 ≤ item.quantity ∧ item.quantity ≤ (item.prod.stockCount : Int) := by
  decide

/-- C1 amended: for a catalog with distinct ids, after any finite sequence
of cart mutations whose added products come from the catalog, every line
has quantity at least 1 and at most max 1 stockCount (so within
[1, stockCount] whenever stockCount is at least 1, and exactly 1 on a line
for a zero-stock product). -/
theorem cart_quantity_bounds (products : List Product) (ops : List Op)
    (hids : (products.map Product.id).Nodup)
    (hops : ∀ p, Op.add p ∈ ops → p ∈ products) :
    ∀ item ∈ runOps products ops,
      1 ≤ item.quantity ∧ item.quantity ≤ max 1 (item.prod.stockCount : Int) := by
  intro item hmem
  have hwf : CartWF products (runOps products ops) := by
    unfold runOps
    exact cartWF_foldl products hids ops [] hops ⟨by simp [CartIds], by simp⟩
  obtain ⟨-, h1, h2⟩ := hwf.2 item hmem
  exact ⟨h1, by simpa [Product.stockCount] using h2⟩

/-- C1 witness: the amended bounds at a concrete catalog and op sequence. -/
theorem cart_quantity_bounds_witness :
    ([sampleInStock].map Product.id).Nodup ∧
      (∀ p, Op.add p ∈ [Op.add sampleInStock] → p ∈ [sampleInStock]) ∧
      ∀ item ∈ runOps [sampleInStock] [Op.add sampleInStock],
        1 ≤ item.quantity ∧ item.quantity ≤ max 1 (item.prod.stockCount : Int) :=
  ⟨by decide,
    fun p hp => by
      simp only [List.mem_singleton, Op.add.injEq] at hp
      subst hp
      exact List.mem_singleton.mpr rfl,
    cart_quantity_bounds [sampleInStock] [Op.add sampleInStock] (by decide)
      (fun p hp => by
        simp only [List.mem_singleton, Op.add.injEq] at hp
        subst hp
        exact List.mem_singleton.mpr rfl)⟩

/-- C7: with empty search term, empty category and default sort order, the
computed view is the catalog itself, same elements in the same order. -/
theorem applyFilters_identity (products : List Product) :
    applyFilters products ⟨"", "", ""⟩ = products := by
  simp [applyFilters, searchCategoryFilter]

/-- C2 counterexample: adding an out-of-stock product to an empty cart is
not a no-op; the source appends a quantity-1 line without any stock check
on the fresh-line branch. -/
theorem addToCart_contract_counterexample :
    sampleOutOfStock.stockCount = 0 ∧
      addToCart [] sampleOutOfStock = [{ prod := sampleOutOfStock, quantity := 1 }] := by
  exact ⟨rfl, rfl⟩

/-- C2 amended: if no line carries the product's id, addToCart appends a
fresh line with quantity 1 regardless of stock; if a line exists, it is
incremented by 1 exactly when quantity + 1 is within stock, else the cart
is unchanged. -/
theorem addToCart_contract (cart : List CartItem) (product : Product) :
    ((∀ item ∈ cart, item.prod.id ≠ product.id) →
      addToCart cart product = cart ++ [{ prod := product, quantity := 1 }]) ∧
    (∀ existingItem,
      cart.find? (fun item => item.prod.id == product.id) = some existingItem →
      (existingItem.quantity + 1 ≤ (product.stockCount : Int) →
        addToCart cart product = cart.map (fun item =>
          if item.prod.id == product.id then { item with quantity := item.quantity + 1 }
          else item)) ∧
      ((product.stockCount : Int) < existingItem.quantity + 1 →
        addToCart cart product = cart)) := by
  constructor
  · intro h
    unfold addToCart
    rw [List.find?_eq_none.mpr (fun item hm => by simpa using h item hm)]
  · intro existingItem hfind
    unfold addToCart
    rw [hfind]
    simp only [Product.stockCount]
    constructor
    · intro h
      rw [if_pos (by omega)]
    · intro h
      rw [if_neg (by omega)]

/-- C2 witness: concrete instance of the fresh-line branch. -/
theorem addToCart_contract_witness :
    (∀ item ∈ ([] : List CartItem), item.prod.id ≠ sampleInStock.id) ∧
      addToCart [] sampleInStock = [] ++ [{ prod := sampleInStock, quantity := 1 }] :=
  ⟨by simp, (addToCart_contract [] sampleInStock).1 (by simp)⟩

/-- C3 counterexample: updateQuantity with a productId absent from the
catalog is not a silent no-op; the source throws a TypeError dereferencing
the failed lookup (modelled by none). -/
theorem updateQuantity_missing_product_counterexample :
    updateQuantity [] [] 1 5 ≠ some [] := by decide

/-- C3 amended: addToCart and removeFromCart are total; updateQuantity
completes normally exactly when some catalog product carries productId,
and throws (returns none) otherwise. -/
theorem updateQuantity_total_iff (products : List Product) (cart : List CartItem)
    (productId : Nat) (newQuantity : Int) :
    (updateQuantity products cart productId newQuantity).isSome = true ↔
      ∃ p ∈ products, p.id = productId := by
  cases hfind : products.find? (fun p => p.id == productId) with
  | none =>
      have hnone : updateQuantity products cart productId newQuantity = none := by
        unfold updateQuantity
        rw [hfind]
      rw [List.find?_eq_none] at hfind
      simp only [hnone, Option.isSome_none, Bool.false_eq_true, false_iff]
      rintro ⟨p, hp, hid⟩
      exact absurd (by simpa using hid) (by simpa using hfind p hp)
  | some product =>
      have hmem := List.mem_of_find?_eq_some hfind
      have hid : product.id = productId := by simpa using List.find?_some hfind
      have hsome : (updateQuantity products cart productId newQuantity).isSome = true := by
        unfold updateQuantity
        rw [hfind]
        split
        · simp_all
        · split
          · simp
          · split <;> simp
      simp only [hsome, true_iff]
      exact ⟨product, hmem, hid⟩

/-- C4: when the catalog lookup finds the product, updateQuantity removes
the line for nonpositive quantities, sets it exactly when within the
catalog product's stock, and leaves the cart unchanged above stock. -/
theorem updateQuantity_contract (products : List Product) (cart : List CartItem)
    (productId : Nat) (newQuantity : Int) (product : Product)
    (hfind : products.find? (fun p => p.id == productId) = some product) :
    (newQuantity ≤ 0 →
      updateQuantity products cart productId newQuantity =
        some (removeFromCart cart productId)) ∧
    (0 < newQuantity → newQuantity ≤ (product.stockCount : Int) →
      updateQuantity products cart productId newQuantity =
        some (cart.map (fun item =>
          if item.prod.id == productId then { item with quantity := newQuantity }
          else item))) ∧
    ((product.stockCount : Int) < newQuantity →
      updateQuantity products cart productId newQuantity = some cart) := by
  unfold updateQuantity
  rw [hfind]
  simp only [Product.stockCount]
  refine ⟨fun h => ?_, fun h1 h2 => ?_, fun h => ?_⟩
  · rw [if_pos h]
  · simp only [Product.stockCount] at h2
    rw [if_neg (by omega), if_pos h2]
  · simp only [Product.stockCount] at h
    rw [if_neg (by omega), if_neg (by omega)]

/-- C4 witness: concrete instance of the within-stock branch. -/
theorem updateQuantity_contract_witness :
    ([sampleInStock].find? (fun p => p.id == 2) = some sampleInStock) ∧
      (0 : Int) < 2 ∧ (2 : Int) ≤ (sampleInStock.stockCount : Int) ∧
      updateQuantity [sampleInStock] [{ prod := sampleInStock, quantity := 1 }] 2 2 =
        some ([{ prod := sampleInStock, quantity := 1 }].map (fun item =>
          if item.prod.id == 2 then { item with quantity := 2 } else item)) :=
  ⟨by decide, by decide, by decide,
    (updateQuantity_contract [sampleInStock] [{ prod := sampleInStock, quantity := 1 }]
      2 2 sampleInStock (by decide)).2.1 (by decide) (by decide)⟩

/-- Membership in the filtered (not yet sorted) list: the search and
category criteria apply conjunctively. -/
lemma mem_searchCategoryFilter (products : List Product) (c : FilterCriteria)
    (p : Product) :
    p ∈ searchCategoryFilter products c ↔
      p ∈ products ∧
        (c.searchTerm = "" ∨ jsIncludes p.title.toLower c.searchTerm.toLower = true) ∧
        (c.selectedCategory = "" ∨ p.category = c.selectedCategory) := by
  unfold searchCategoryFilter
  by_cases hs : c.searchTerm = "" <;> by_cases hc : c.selectedCategory = "" <;>
    simp [hs, hc, List.mem_filter, and_assoc] <;> tauto

/-- C5: membership in the computed view is exactly the conjunction of the
search condition and the category condition; sorting never changes
membership. -/
theorem applyFilters_mem_iff (products : List Product) (c : FilterCriteria)
    (p : Product) :
    p ∈ applyFilters products c ↔
      p ∈ products ∧
        (c.searchTerm = "" ∨ jsIncludes p.title.toLower c.searchTerm.toLower = true) ∧
        (c.selectedCategory = "" ∨ p.category = c.selectedCategory) := by
  rw [← mem_searchCategoryFilter]
  simp only [applyFilters]
  split
  · exact List.mem_mergeSort
  · split
    · exact List.mem_mergeSort
    · exact Iff.rfl

/-- A stable sort leaves each equal-key fiber untouched: filtering the
sorted list by any fixed key equals filtering the input by that key. -/
lemma filter_key_mergeSort (le : Product → Product → Bool)
    (htrans : ∀ a b c : Product, le a b → le b c → le a c)
    (htotal : ∀ a b : Product, le a b || le b a)
    (l : List Product) (P : Product → Bool)
    (hP : ∀ a b : Product, P a → P b → le a b) :
    (l.mergeSort le).filter P = l.filter P := by
  have h1 : List.Sublist (l.filter P) l := List.filter_sublist l
  have hpw : (l.filter P).Pairwise (fun a b => le a b = true) := by
    apply List.pairwise_of_forall_mem_list
    intro a ha b hb
    exact hP a b (List.of_mem_filter ha) (List.of_mem_filter hb)
  have h2 : List.Sublist (l.filter P) (l.mergeSort le) :=
    List.sublist_mergeSort htrans htotal hpw h1
  have h3 : List.Sublist (l.filter P) ((l.mergeSort le).filter P) := by
    have hh := h2.filter P
    rwa [List.filter_filter, show (fun a => P a && P a) = P from funext fun a =>
      Bool.and_self (P a)] at hh
  have h4 : List.Perm ((l.mergeSort le).filter P) (l.filter P) :=
    (List.mergeSort_perm l le).filter P
  exact (h3.eq_of_length h4.length_eq.symm).symm

/-- The ascending price comparator is transitive. -/
lemma priceLe_trans : ∀ a b c : Product,
    decide (a.price ≤ b.price) → decide (b.price ≤ c.price) →
    decide (a.price ≤ c.price) := by
  intro a b c h1 h2
  simp only [decide_eq_true_eq] at h1 h2 ⊢
  exact le_trans h1 h2

/-- The ascending price comparator is total. -/
lemma priceLe_total : ∀ a b : Product,
    decide (a.price ≤ b.price) || decide (b.price ≤ a.price) := by
  intro a b
  simpa using le_total a.price b.price

/-- The descending price comparator is transitive. -/
lemma priceGe_trans : ∀ a b c : Product,
    decide (b.price ≤ a.price) → decide (c.price ≤ b.price) →
    decide (c.price ≤ a.price) := by
  intro a b c h1 h2
  simp only [decide_eq_true_eq] at h1 h2 ⊢
  exact le_trans h2 h1

/-- The descending price comparator is total. -/
lemma priceGe_total : ∀ a b : Product,
    decide (b.price ≤ a.price) || decide (a.price ≤ b.price) := by
  intro a b
  simpa using le_total b.price a.price

/-- C6: low-high yields a view non-decreasing by price, high-low one
non-increasing by price, both sorts are stable (every equal-price fiber
keeps its pre-sort order), and any other sortOrder preserves the
post-filter order. -/
theorem applyFilters_sort_spec (products : List Product) (c : FilterCriteria) :
    (c.sortOrder = "low-high" →
      (applyFilters products c).Pairwise (fun a b => a.price ≤ b.price)) ∧
    (c.sortOrder = "high-low" →
      (applyFilters products c).Pairwise (fun a b => b.price ≤ a.price)) ∧
    (∀ q : Rat, (applyFilters products c).filter (fun p => p.price == q) =
      (searchCategoryFilter products c).filter (fun p => p.price == q)) ∧
    (c.sortOrder ≠ "low-high" → c.sortOrder ≠ "high-low" →
      applyFilters products c = searchCategoryFilter products c) := by
  refine ⟨?_, ?_, ?_, ?_⟩
  · intro h
    simp only [applyFilters, h, if_pos]
    exact (List.sorted_mergeSort priceLe_trans priceLe_total _).imp
      (fun hab => by simpa using hab)
  · intro h
    have hne : ("high-low" : String) ≠ "low-high" := by decide
    simp only [applyFilters, h, if_neg hne, if_pos]
    exact (List.sorted_mergeSort priceGe_trans priceGe_total _).imp
      (fun hab => by simpa using hab)
  · intro q
    by_cases h1 : c.sortOrder = "low-high"
    · simp only [applyFilters, h1, if_pos]
      exact filter_key_mergeSort _ priceLe_trans priceLe_total _ _
        (fun a b ha hb => by
          simp only [beq_iff_eq] at ha hb
          simp [ha, hb])
    · by_cases h2 : c.sortOrder = "high-low"
      · simp only [applyFilters, h1, h2, if_neg, if_pos]
        exact filter_key_mergeSort _ priceGe_trans priceGe_total _ _
          (fun a b ha hb => by
            simp only [beq_iff_eq] at ha hb
            simp [ha, hb])
      · simp only [applyFilters, if_neg h1, if_neg h2]
  · intro h1 h2
    simp only [applyFilters, if_neg h1, if_neg h2]

/-- C6 witness: a concrete ascending sort instance. -/
theorem applyFilters_sort_spec_witness :
    (FilterCriteria.mk "" "" "low-high").sortOrder = "low-high" ∧
      (applyFilters [sampleOutOfStock, sampleInStock]
        (FilterCriteria.mk "" "" "low-high")).Pairwise
        (fun a b => a.price ≤ b.price) :=
  ⟨rfl,
    (applyFilters_sort_spec [sampleOutOfStock, sampleInStock]
      (FilterCriteria.mk "" "" "low-high")).1 rfl⟩

/-- Membership across the first-occurrence dedup fold of a JS Set build. -/
lemma mem_dedupFold (l : List String) :
    ∀ (acc : List String) (x : String),
      x ∈ l.foldl (fun acc c => if c ∈ acc then acc else acc ++ [c]) acc ↔
        x ∈ acc ∨ x ∈ l := by
  induction l with
  | nil =>
      intro acc x
      simp
  | cons a l ih =>
      intro acc x
      rw [List.foldl_cons]
      by_cases ha : a ∈ acc
      · rw [if_pos ha, ih]
        constructor
        · rintro (h | h)
          · exact Or.inl h
          · exact Or.inr (List.mem_cons_of_mem _ h)
        · rintro (h | h)
          · exact Or.inl h
          · rcases List.mem_cons.mp h with rfl | h
            · exact Or.inl ha
            · exact Or.inr h
      · rw [if_neg ha, ih]
        simp only [List.mem_append, List.mem_singleton, List.mem_cons]
        tauto

/-- The first-occurrence dedup fold keeps the accumulator duplicate-free. -/
lemma nodup_dedupFold (l : List String) :
    ∀ acc : List String, acc.Nodup →
      (l.foldl (fun acc c => if c ∈ acc then acc else acc ++ [c]) acc).Nodup := by
  induction l with
  | nil => exact fun acc h => h
  | cons a l ih =>
      intro acc h
      rw [List.foldl_cons]
      by_cases ha : a ∈ acc
      · rw [if_pos ha]
        exact ih acc h
      · rw [if_neg ha]
        refine ih _ ?_
        rw [List.nodup_append]
        refine ⟨h, List.nodup_singleton _, ?_⟩
        intro x hx hx1
        rw [List.mem_singleton] at hx1
        subst hx1
        exact ha hx

/-- C8: in any component state, the categories offered to the selector are
exactly the distinct category values of the raw catalog (duplicates
collapsed), whatever the current search, category and sort criteria. -/
theorem getCategories_spec (products fp : List Product) (cart : List CartItem)
    (st cat so : String) :
    (∀ c, c ∈ getCategoriesState
        { products := products, filteredProducts := fp, cart := cart,
          searchTerm := st, selectedCategory := cat, sortOrder := so } ↔
        ∃ p ∈ products, p.category = c) ∧
      (getCategoriesState
        { products := products, filteredProducts := fp, cart := cart,
          searchTerm := st, selectedCategory := cat, sortOrder := so }).Nodup := by
  constructor
  · intro c
    show c ∈ getCategories products ↔ _
    unfold getCategories
    rw [mem_dedupFold]
    simp
  · show (getCategories products).Nodup
    exact nodup_dedupFold _ [] List.nodup_nil

/-- C9: recomputing the filtered/sorted view never changes the raw catalog,
its element order included, under every criteria combination. -/
theorem applyFilters_frame (s : AppState) :
    (applyFiltersState s).products = s.products := rfl

end ECommerce
